import Mathlib

/-!
# Verification of the MAX-BLE-HCI packet codec and serial transport

Shallow embedding of `src/ble_hci/hci_packets.py` and the retry/timeout
logic of `src/ble_hci/_utils.py` (class `SerialUartTransport`).

Conventions of the embedding:
* Python `bytes`/`bytearray` values are `List Nat` with every element < 256
  (wire bytes); Python `int` parameters are `Int`.
* Python code that can raise (`IndexError`, `OverflowError`, `ValueError`,
  `TypeError`) is translated to `Option`-returning functions; `none` stands
  for "an exception escapes the call".
* the Python call `x.bit_length()` is `bitLength x.natAbs` (Python ignores the sign).
-/

namespace BleHci

/-- The `Endian` enum of `hci_packets.py` (`LITTLE = "little"`, `BIG = "big"`). -/
inductive Endian where
  | little
  | big
deriving DecidableEq

/-- Fuel-driven helper for `bitLength`: with `n ≤ fuel` it computes the number
of binary digits of `n` (0 for 0), i.e. the Python method `int.bit_length`. -/
def bitLenAux : Nat → Nat → Nat
  | 0, _ => 0
  | fuel + 1, n => if n = 0 then 0 else bitLenAux fuel (n / 2) + 1

/-- The Python method `int.bit_length` on a natural number: the number of binary digits. -/
def bitLength (n : Nat) : Nat := bitLenAux n n

/-- Translation of `_byte_length` (`hci_packets.py`):
`max((num.bit_length() + 7) // 8, 1)`.  the Python `bit_length` method discards the
sign, hence `natAbs`. -/
def byteLength (v : Int) : Nat := max ((bitLength v.natAbs + 7) / 8) 1

/-- The `n` little-endian base-256 digits of `u` (low byte first), as
`int.to_bytes(n, "little")` produces once the range check has passed. -/
def toLEBytes : Nat → Nat → List Nat
  | _, 0 => []
  | u, n + 1 => (u % 256) :: toLEBytes (u / 256) n

/-- Value of a little-endian byte list, as `int.from_bytes(bs, "little")`. -/
def fromLEBytes : List Nat → Nat
  | [] => 0
  | b :: bs => b + 256 * fromLEBytes bs

/-- Byte list of `u` in `n` bytes for a given byte order. -/
def bytesOf (u n : Nat) (e : Endian) : List Nat :=
  match e with
  | .little => toLEBytes u n
  | .big => (toLEBytes u n).reverse

/-- Unsigned value of a byte list: `int.from_bytes(bs, endianness)`. -/
def natFromBytes (bs : List Nat) (e : Endian) : Nat :=
  match e with
  | .little => fromLEBytes bs
  | .big => fromLEBytes bs.reverse

/-- Signed-aware value of a byte list, the Python call
`int.from_bytes(bs, endianness, signed=signed)`: with `signed=True` a set
top bit subtracts `2^(8·len)`. -/
def intFromBytes (bs : List Nat) (e : Endian) (signed : Bool) : Int :=
  let u := natFromBytes bs e
  if signed ∧ 2 ^ (8 * bs.length - 1) ≤ u then (u : Int) - 2 ^ (8 * bs.length)
  else (u : Int)

/-- The Python call `int.to_bytes(n, endianness, signed=signed)`: `none` when the
value does not fit (`OverflowError`), otherwise the byte string. -/
def intToBytes (v : Int) (n : Nat) (e : Endian) (signed : Bool) : Option (List Nat) :=
  if signed then
    if -(2 ^ (8 * n - 1) : Int) ≤ v ∧ v < 2 ^ (8 * n - 1) then
      some (bytesOf (v % (2 ^ (8 * n) : Int)).toNat n e)
    else none
  else
    if 0 ≤ v ∧ v < (2 ^ (8 * n) : Int) then some (bytesOf v.toNat n e) else none

/-- One iteration of the parameter loop in `CommandPacket.to_bytes`:
`param.to_bytes(num_bytes, endianness.value)`, retried with `signed=True`
when the unsigned call raises `OverflowError`; a second `OverflowError`
escapes (`none`). -/
def encodeParam (v : Int) (e : Endian) : Option (List Nat) :=
  let n := byteLength v
  match intToBytes v n e false with
  | some bs => some bs
  | none => intToBytes v n e true

/-- The whole parameter loop of `CommandPacket.to_bytes`: concatenation of the
per-parameter encodings, `none` as soon as one parameter fails. -/
def encodeParams : List Int → Endian → Option (List Nat)
  | [], _ => some []
  | p :: ps, e =>
    match encodeParam p e, encodeParams ps e with
    | some b, some bs => some (b ++ bs)
    | _, _ => none

namespace CommandPacket

/-- Translation of `CommandPacket.make_hci_opcode`: `(ogf << 10) | ocf`
(the enum-unwrapping branches are identity on integer inputs). -/
def make_hci_opcode (ogf ocf : Nat) : Nat := (ogf <<< 10) ||| ocf

/-- Translation of `CommandPacket._get_length`.  In the source the
`isinstance(params, int)` branch equals the list branch on the singleton
list, so parameters are always modelled as `Option (List Int)`. -/
def getLength (params : Option (List Int)) : Nat :=
  match params with
  | none => 0
  | some ps => (ps.map byteLength).sum

/-- Modelled from the spec: `PacketType.COMMAND.value` lives in
`packet_defs.py`, which is not part of the staged sources; §6 of the spec
fixes the frame type tags as `0x01` = command, `0x02` = async/ACL,
`0x04` = event. -/
def COMMAND_TAG : Nat := 0x01

/-- Translation of `CommandPacket.to_bytes`: the serialized frame
`[tag][opcode_lo][opcode_hi][length][param bytes…]`.  `bytearray.append`
raises `ValueError` when the computed length exceeds one byte (255), before
any parameter is serialized; a parameter whose signed fallback also
overflows raises as well — both are `none`. -/
def to_bytes (ogf ocf : Nat) (params : Option (List Int)) (e : Endian) :
    Option (List Nat) :=
  let opcode := make_hci_opcode ogf ocf
  let length := getLength params
  if length ≤ 255 then
    match params with
    | none => some [COMMAND_TAG, opcode &&& 0xFF, (opcode &&& 0xFF00) >>> 8, length]
    | some ps =>
      match encodeParams ps e with
      | some pbs =>
        some ([COMMAND_TAG, opcode &&& 0xFF, (opcode &&& 0xFF00) >>> 8, length] ++ pbs)
      | none => none
  else none

end CommandPacket

/-- Modelled from the spec: the numeric values of the `EventCode` enum live in
`packet_codes.py`, which is not part of the staged sources.  The spec fixes
`COMMAND_COMPLETE = 0x0E` through its worked example and names the remaining
dispatch codes after the standard HCI event codes they follow. -/
def COMMAND_COMPLETE : Nat := 0x0E

/-- Modelled from the spec: standard HCI Hardware Error event code. -/
def HARDWARE_ERROR : Nat := 0x10

/-- Modelled from the spec: standard HCI Number Of Completed Packets code. -/
def NUM_COMPLETED_PACKETS : Nat := 0x13

/-- Modelled from the spec: standard HCI Data Buffer Overflow event code. -/
def DATA_BUFF_OVERFLOW : Nat := 0x1A

/-- Modelled from the spec: standard HCI LE Meta event code. -/
def LE_META : Nat := 0x3E

/-- Modelled from the spec: standard HCI Authenticated Payload Timeout
Expired event code. -/
def AUTH_PAYLOAD_TIMEOUT_EXPIRED : Nat := 0x57

/-- The event codes of the `if`-dispatch table in `EventPacket.from_bytes`. -/
def knownEventCodes : List Nat :=
  [COMMAND_COMPLETE, HARDWARE_ERROR, NUM_COMPLETED_PACKETS, DATA_BUFF_OVERFLOW,
    LE_META, AUTH_PAYLOAD_TIMEOUT_EXPIRED]

/-- Modelled from the spec: standard HCI success status (`LL_SUCCESS = 0x00`,
`packet_codes.py` is not part of the staged sources). -/
def LL_SUCCESS : Nat := 0x00

/-- Modelled from the spec: the hardware-failure status code
(`LL_ERROR_CODE_HW_FAILURE`, standard HCI value 0x03). -/
def LL_ERROR_CODE_HW_FAILURE : Nat := 0x03

/-- Translation of the `X(arg) if arg else None` pattern of
`EventPacket.__init__` applied to `status` and `evt_subcode`: Python treats
both `None` and `0` as falsy, so a 0 byte is stored as `None`.  The enum
wrapping itself (`StatusCode(...)`, `EventSubcode(...)`) is modelled from the
spec as the identity on codes, `packet_codes.py` not being staged and §4.1/§7
of the spec treating decoding as total. -/
def pyOptCode : Option Nat → Option Nat
  | none => none
  | some v => if v = 0 then none else some v

/-- The fields of `EventPacket` (`hci_packets.py`). -/
structure EventPacket where
  evt_code : Nat
  length : Nat
  status : Option Nat
  evt_subcode : Option Nat
  evt_params : List Nat
deriving DecidableEq

/-- Translation of `EventPacket.__init__`. -/
def EventPacket.init (evt_code length : Nat) (status : Option Nat)
    (evt_params : List Nat) (evt_subcode : Option Nat) : EventPacket :=
  { evt_code := evt_code
    length := length
    status := pyOptCode status
    evt_subcode := pyOptCode evt_subcode
    evt_params := evt_params }

/-- Translation of `EventPacket.from_bytes`.  Indexing a missing byte is an
`IndexError` (`none`); the `HARDWARE_ERROR` branch passes the keyword `evt`,
which `__init__` does not accept, so it always raises `TypeError` (`none`).
The `endianness` parameter of the source is unused by its body and omitted. -/
def EventPacket.from_bytes (s : List Nat) : Option EventPacket :=
  match s[0]? with
  | none => none
  | some b0 =>
    if b0 = COMMAND_COMPLETE then
      match s[1]?, s[5]? with
      | some b1, some b5 => some (EventPacket.init b0 b1 (some b5) (s.drop 2) none)
      | _, _ => none
    else if b0 = HARDWARE_ERROR then
      none
    else if b0 = NUM_COMPLETED_PACKETS then
      match s[1]? with
      | some b1 => some (EventPacket.init b0 b1 (some LL_SUCCESS) (s.drop 2) none)
      | none => none
    else if b0 = DATA_BUFF_OVERFLOW then
      match s[1]? with
      | some b1 => some (EventPacket.init b0 b1 none (s.drop 2) none)
      | none => none
    else if b0 = LE_META then
      match s[1]?, s[2]? with
      | some b1, some b2 => some (EventPacket.init b0 b1 none (s.drop 3) (some b2))
      | _, _ => none
    else if b0 = AUTH_PAYLOAD_TIMEOUT_EXPIRED then
      match s[1]? with
      | some b1 => some (EventPacket.init b0 b1 none (s.drop 2) none)
      | none => none
    else
      match s[1]?, s[2]? with
      | some b1, some b2 => some (EventPacket.init b0 b1 (some b2) (s.drop 3) none)
      | _, _ => none

/-- Python slice `bs[i:j]` on a byte list (never raises, clamps). -/
def pySlice (bs : List Nat) (i j : Nat) : List Nat := (bs.drop i).take (j - i)

/-- The result of `get_return_params`: one integer, or one per width. -/
inductive RetParams where
  | single (v : Int)
  | multiple (vs : List Nat)
deriving DecidableEq

/-- Translation of the slicing loop of `EventPacket.get_return_params`:
`int.from_bytes(param_bytes[p_idx : p_idx + p_len], endianness.value)` for
each width, accumulating `p_idx`. -/
def sliceLoop (param_bytes : List Nat) (e : Endian) : List Nat → Nat → List Nat
  | [], _ => []
  | p_len :: rest, p_idx =>
    natFromBytes (pySlice param_bytes p_idx (p_idx + p_len)) e ::
      sliceLoop param_bytes e rest (p_idx + p_len)

/-- Translation of `EventPacket.get_return_params`.  `not param_lens` is true
for both `None` and the empty list; the `ValueError` for excessive widths is
`none`.  Note the slicing loop never passes `signed`. -/
def EventPacket.get_return_params (p : EventPacket) (param_lens : Option (List Nat))
    (e : Endian) (use_raw : Bool) (signed : Bool) : Option RetParams :=
  let param_bytes := if use_raw then p.evt_params else p.evt_params.drop 4
  match param_lens with
  | none => some (RetParams.single (intFromBytes param_bytes e signed))
  | some [] => some (RetParams.single (intFromBytes param_bytes e signed))
  | some (l :: ls) =>
    if param_bytes.length < (l :: ls).sum then none
    else some (RetParams.multiple (sliceLoop param_bytes e (l :: ls) 0))

/-- Statement of the slicing rule the spec gives for `extract_return_values`
(§4.1), used to compare the index-based loop of the source against: "slices
sequential fields of the given byte widths". -/
def sliceSpec (e : Endian) : List Nat → List Nat → List Nat
  | _, [] => []
  | bs, l :: ls => natFromBytes (bs.take l) e :: sliceSpec e (bs.drop l) ls

/-- The fields of `AsyncPacket` (`hci_packets.py`). -/
structure AsyncPacket where
  handle : Nat
  pb_flag : Nat
  bc_flag : Nat
  length : Nat
  data : Option (List Nat)
deriving DecidableEq

/-- Translation of `AsyncPacket.from_bytes`; four header bytes are indexed,
fewer raise `IndexError` (`none`); `pkt[4:] if pkt[4:] else None`. -/
def AsyncPacket.from_bytes (pkt : List Nat) : Option AsyncPacket :=
  match pkt[0]?, pkt[1]?, pkt[2]?, pkt[3]? with
  | some b0, some b1, some b2, some b3 =>
    some
      { handle := (b0 &&& 0xF0) + (b1 <<< 8)
        pb_flag := (b0 &&& 0xC) >>> 2
        bc_flag := b0 &&& 0x3
        length := b2 + (b3 <<< 8)
        data := if pkt.drop 4 = [] then none else some (pkt.drop 4) }
  | _, _, _, _ => none

/-! ## Serial transport retry model (`_utils.py`, `SerialUartTransport`)

`_write` / `_retrieve` drive a serial port and a background reader thread.
The claims about them concern the steady state "non-responding peer": the
completion queue `_event_packets` stays empty and the reader thread stays
alive.  In that state `_retrieve` spawns its timeout process (which sleeps
for `timeout`), busy-waits until the process has exited, and then raises
`TimeoutError`, so one attempt consumes at least `timeout` seconds (modelled
as exactly `timeout`) and always fails. -/

/-- Observable actions of `SerialUartTransport._write`: the single
`port.write` of the serialized command, and one `_retrieve` waiting attempt. -/
inductive TransportAction where
  | write (pkt : List Nat)
  | retrieveAttempt
deriving DecidableEq

namespace SerialUartTransport

/-- The retry loop of `_write` against a non-responding peer: while
`tries >= 0` (and the reader thread is alive), call `_retrieve`, which
elapses one `timeout` and raises `TimeoutError`; each failure decrements
`tries`.  Returns the actions of the loop and total elapsed time. -/
def writeLoopNR (timeout : ℚ) (tries : Int) : List TransportAction × ℚ :=
  if 0 ≤ tries then
    let rest := writeLoopNR timeout (tries - 1)
    (TransportAction.retrieveAttempt :: rest.1, timeout + rest.2)
  else ([], 0)
termination_by (tries + 1).toNat
decreasing_by omega

/-- Outcome of one `_write` call against a non-responding peer. -/
structure WriteOutcome where
  actions : List TransportAction
  elapsed : ℚ
  /-- Whether the call raised `TimeoutError` ("No retries remaining"). -/
  timedOut : Bool
deriving DecidableEq

/-- Translation of `SerialUartTransport._write` specialized to a
non-responding peer: `port.flush(); port.write(pkt)` happens once, before the
retry loop; the loop never writes; after the loop exhausts its `retries + 1`
attempts the final `raise TimeoutError` fires. -/
def writeNR (pkt : List Nat) (retries : Int) (timeout : ℚ) : WriteOutcome :=
  let loop := writeLoopNR timeout retries
  { actions := TransportAction.write pkt :: loop.1
    elapsed := loop.2
    timedOut := true }

end SerialUartTransport

/-! ## Helper lemmas -/

theorem bitLenAux_spec (fuel : Nat) : ∀ n : Nat, n ≤ fuel → n < 2 ^ bitLenAux fuel n := by
  induction fuel with
  | zero =>
    intro n h
    have hn : n = 0 := Nat.le_zero.mp h
    subst hn
    simp [bitLenAux]
  | succ f ih =>
    intro n h
    by_cases hn : n = 0
    · subst hn; simp [bitLenAux]
    · have hdiv : n / 2 ≤ f := by omega
      have hrec := ih (n / 2) hdiv
      have hpow : 2 ^ (bitLenAux f (n / 2) + 1) = 2 * 2 ^ bitLenAux f (n / 2) := by
        rw [Nat.pow_succ, Nat.mul_comm]
      simp only [bitLenAux, hn, if_false]
      omega

theorem lt_two_pow_bitLength (n : Nat) : n < 2 ^ bitLength n :=
  bitLenAux_spec n n le_rfl

theorem byteLength_pos (v : Int) : 1 ≤ byteLength v := Nat.le_max_right _ _

theorem natAbs_lt_two_pow_byteLength (v : Int) : v.natAbs < 2 ^ (8 * byteLength v) := by
  refine lt_of_lt_of_le (lt_two_pow_bitLength v.natAbs)
    (Nat.pow_le_pow_right (by norm_num) ?_)
  have hmax := Nat.le_max_left ((bitLength v.natAbs + 7) / 8) 1
  unfold byteLength
  omega

theorem toLEBytes_length (n : Nat) : ∀ u : Nat, (toLEBytes u n).length = n := by
  induction n with
  | zero => intro u; simp [toLEBytes]
  | succ m ih => intro u; simp [toLEBytes, ih]

theorem fromLEBytes_toLEBytes (n : Nat) :
    ∀ u : Nat, u < 2 ^ (8 * n) → fromLEBytes (toLEBytes u n) = u := by
  induction n with
  | zero =>
    intro u h
    have : u = 0 := by simpa using h
    subst this
    simp [toLEBytes, fromLEBytes]
  | succ m ih =>
    intro u h
    have hpow : 2 ^ (8 * (m + 1)) = 2 ^ (8 * m) * 256 := by
      rw [show 8 * (m + 1) = 8 * m + 8 by ring, Nat.pow_add]
    have hdiv : u / 256 < 2 ^ (8 * m) := by
      rw [hpow] at h
      omega
    simp only [toLEBytes, fromLEBytes, ih (u / 256) hdiv]
    omega

theorem make_hci_opcode_eq (g c : Nat) (hc : c < 1024) :
    CommandPacket.make_hci_opcode g c = 1024 * g + c := by
  unfold CommandPacket.make_hci_opcode
  apply Nat.eq_of_testBit_eq
  intro i
  rw [show (1024 : Nat) * g + c = 2 ^ 10 * g + c by norm_num,
    Nat.testBit_mul_pow_two_add g hc i, Nat.testBit_or, Nat.testBit_shiftLeft]
  by_cases hi : i < 10
  · simp [hi, Nat.not_le.mpr hi]
  · have h10 : 10 ≤ i := Nat.not_lt.mp hi
    have hc2 : c < 2 ^ i :=
      lt_of_lt_of_le hc (by
        calc (1024 : Nat) = 2 ^ 10 := by norm_num
        _ ≤ 2 ^ i := Nat.pow_le_pow_right (by norm_num) h10)
    simp [hi, h10, Nat.testBit_lt_two_pow hc2]

theorem and_255_eq_mod (o : Nat) : o &&& 0xFF = o % 256 := by
  have h := Nat.and_pow_two_sub_one_eq_mod o 8
  norm_num at h
  exact h

theorem and_hi_shift_eq_div (o : Nat) (ho : o < 65536) :
    (o &&& 0xFF00) >>> 8 = o / 256 := by
  have h256 : o / 256 = o >>> 8 := by
    rw [Nat.shiftRight_eq_div_pow]
  apply Nat.eq_of_testBit_eq
  intro j
  rw [Nat.testBit_shiftRight, Nat.testBit_and, h256, Nat.testBit_shiftRight,
    show (0xFF00 : Nat) = (2 ^ 8 - 1) <<< 8 by decide, Nat.testBit_shiftLeft,
    Nat.testBit_two_pow_sub_one]
  by_cases hj : j < 8
  · simp [hj, Nat.add_sub_cancel_left]
  · have hbig : o < 2 ^ (8 + j) := by
      refine lt_of_lt_of_le ho ?_
      calc (65536 : Nat) = 2 ^ 16 := by norm_num
      _ ≤ 2 ^ (8 + j) := Nat.pow_le_pow_right (by norm_num) (by omega)
    simp [hj, Nat.add_sub_cancel_left, Nat.testBit_lt_two_pow hbig]

theorem sliceLoop_eq_sliceSpec (bs : List Nat) (e : Endian) :
    ∀ (lens : List Nat) (i : Nat), sliceLoop bs e lens i = sliceSpec e (bs.drop i) lens := by
  intro lens
  induction lens with
  | nil => intro i; simp [sliceLoop, sliceSpec]
  | cons l ls ih =>
    intro i
    have hdrop : (bs.drop i).drop l = bs.drop (i + l) := by
      rw [List.drop_drop, Nat.add_comm]
    simp only [sliceLoop, sliceSpec, pySlice, ih (i + l), hdrop,
      Nat.add_sub_cancel_left]

/-! ## Claim theorems -/

/-- C1 counterexample: decoding `[0x0E, 0x04, 0x01, 0x01, 0xFC, 0x00]` does
NOT yield an event whose status is the success code 0x00: the byte read at
offset 5 is 0x00, but `EventPacket.__init__` runs it through
`StatusCode(status) if status else None`, and Python treats the integer 0 as
falsy, so the stored status is `None`. -/
theorem command_complete_status_not_success :
    (EventPacket.from_bytes [0x0E, 0x04, 0x01, 0x01, 0xFC, 0x00]).map
      EventPacket.status ≠ some (some LL_SUCCESS) := by
  decide

/-- C1 (amended): decoding `[0x0E, 0x04, 0x01, 0x01, 0xFC, 0x00]` yields a
command-complete event (code 0x0E) whose status field is `None` — the status
byte is taken from fixed offset 5 and its value 0x00 (success) is collapsed
to `None` by the falsy check in the constructor — with the remaining bytes
from offset 2 onward, `[0x01, 0x01, 0xFC, 0x00]`, available as return-value
parameters; the echoed opcode bytes `0x01, 0xFC` read little-endian are
0xFC01. -/
theorem command_complete_decode_example :
    EventPacket.from_bytes [0x0E, 0x04, 0x01, 0x01, 0xFC, 0x00] =
      some { evt_code := 0x0E, length := 0x04, status := none,
             evt_subcode := none, evt_params := [0x01, 0x01, 0xFC, 0x00] }
    ∧ fromLEBytes [0x01, 0xFC] = 0xFC01 := by
  decide

/-- C2 counterexample: the claim quantifies over every byte sequence whose
first byte is unknown, but a sequence shorter than 3 bytes makes the
catch-all branch raise `IndexError` (it reads offsets 1 and 2): decoding the
one-byte input `[0x55]` fails. -/
theorem unknown_event_short_input_fails :
    EventPacket.from_bytes [0x55] = none := by
  decide

/-- C2 (amended): for every byte sequence of length at least 3 whose first
byte is none of the six event codes of the dispatch table,
`EventPacket.from_bytes` succeeds via the catch-all rule: the status is taken
from the byte at offset 2 (stored as `None` when that byte is 0, through the
falsy check of the constructor) and the parameters are the bytes from offset
3 onward. -/
theorem unknown_event_catch_all (s : List Nat) (b0 b1 b2 : Nat)
    (h0 : s[0]? = some b0) (h1 : s[1]? = some b1) (h2 : s[2]? = some b2)
    (hk : b0 ∉ knownEventCodes) :
    EventPacket.from_bytes s =
      some { evt_code := b0, length := b1,
             status := if b2 = 0 then none else some b2,
             evt_subcode := none, evt_params := s.drop 3 } := by
  simp only [knownEventCodes, COMMAND_COMPLETE, HARDWARE_ERROR,
    NUM_COMPLETED_PACKETS, DATA_BUFF_OVERFLOW, LE_META,
    AUTH_PAYLOAD_TIMEOUT_EXPIRED, List.mem_cons, List.mem_singleton,
    not_or] at hk
  obtain ⟨k1, k2, k3, k4, k5, k6⟩ := hk
  simp only [EventPacket.from_bytes, h0, h1, h2, COMMAND_COMPLETE,
    HARDWARE_ERROR, NUM_COMPLETED_PACKETS, DATA_BUFF_OVERFLOW, LE_META,
    AUTH_PAYLOAD_TIMEOUT_EXPIRED, k1, k2, k3, k4, k5, k6, if_false,
    EventPacket.init, pyOptCode]

/-- C2 witness: the catch-all rule at the concrete unknown-code input
`[0x55, 0x02, 0x07]`. -/
theorem unknown_event_catch_all_witness :
    EventPacket.from_bytes [0x55, 0x02, 0x07] =
      some { evt_code := 0x55, length := 0x02,
             status := if 0x07 = 0 then none else some 0x07,
             evt_subcode := none, evt_params := [0x55, 0x02, 0x07].drop 3 } :=
  unknown_event_catch_all [0x55, 0x02, 0x07] 0x55 0x02 0x07 (by decide)
    (by decide) (by decide) (by decide)

/-- C6: on any byte sequence whose first byte is the `HARDWARE_ERROR` event
code, `EventPacket.from_bytes` never returns an event at all: the branch
calls `EventPacket(evt=...)`, a keyword `__init__` does not accept (and the
required `evt_code` argument is missing), so the call raises `TypeError`
instead of producing an event with the hardware-failure status. -/
theorem hardware_error_decode_raises (s : List Nat)
    (h : s[0]? = some HARDWARE_ERROR) :
    EventPacket.from_bytes s = none := by
  cases s with
  | nil => simp at h
  | cons b rest =>
    simp only [List.getElem?_cons_zero, Option.some.injEq, HARDWARE_ERROR] at h
    subst h
    simp [EventPacket.from_bytes, COMMAND_COMPLETE, HARDWARE_ERROR]

/-- C6 witness: the hardware-error event `[0x10, 0x01, 0x00]` fails to
decode. -/
theorem hardware_error_decode_raises_witness :
    EventPacket.from_bytes [0x10, 0x01, 0x00] = none :=
  hardware_error_decode_raises [0x10, 0x01, 0x00] (by decide)

/-- C8: evaluating `AsyncPacket.from_bytes` at the failing input
`[0x00, 0x10, 0x00, 0x00]`: the decoded connection handle is
`(pkt[0] & 0xF0) + (pkt[1] << 8) = 0x1000`, which is NOT representable in
12 bits — the packed 12-bit handle is left in place, shifted 4 bits up,
instead of being normalized by a right shift.  The 2-bit flags and the
little-endian length decode as the claim says. -/
theorem async_handle_exceeds_12_bits :
    (AsyncPacket.from_bytes [0x00, 0x10, 0x00, 0x00]).map AsyncPacket.handle =
      some 0x1000
    ∧ ¬(0x1000 : Nat) < 2 ^ 12
    ∧ (AsyncPacket.from_bytes [0x37, 0x02, 0x05, 0x01]).map AsyncPacket.pb_flag =
      some 0x1
    ∧ (AsyncPacket.from_bytes [0x37, 0x02, 0x05, 0x01]).map AsyncPacket.bc_flag =
      some 0x3
    ∧ (AsyncPacket.from_bytes [0x37, 0x02, 0x05, 0x01]).map AsyncPacket.length =
      some 0x105 := by
  decide

/-- C7: for every event and non-empty widths list, `get_return_params` fails
(the `ValueError` the spec calls `LengthMismatch`) exactly when the widths
sum to more than the available return-value bytes, and otherwise returns the
sequential fields sliced at those byte widths; with the widths omitted it
returns the whole return-value region (the event payload minus the 4-byte
command-complete header unless `use_raw`) decoded as one integer. -/
theorem get_return_params_spec (p : EventPacket) (l : Nat) (ls : List Nat)
    (raw sg : Bool) :
    (p.get_return_params (some (l :: ls)) Endian.little raw sg = none ↔
      (if raw then p.evt_params else p.evt_params.drop 4).length < (l :: ls).sum)
    ∧ ((l :: ls).sum ≤ (if raw then p.evt_params else p.evt_params.drop 4).length →
        p.get_return_params (some (l :: ls)) Endian.little raw sg =
          some (RetParams.multiple
            (sliceSpec Endian.little
              (if raw then p.evt_params else p.evt_params.drop 4) (l :: ls))))
    ∧ p.get_return_params none Endian.little raw sg =
        some (RetParams.single
          (intFromBytes (if raw then p.evt_params else p.evt_params.drop 4)
            Endian.little sg)) := by
  set bs := if raw then p.evt_params else p.evt_params.drop 4 with hbs
  refine ⟨?_, ?_, rfl⟩
  · by_cases hlen : bs.length < (l :: ls).sum
    · simp [EventPacket.get_return_params, ← hbs, hlen]
    · simp [EventPacket.get_return_params, ← hbs, hlen]
  · intro hle
    have hlen : ¬bs.length < (l :: ls).sum := Nat.not_lt.mpr hle
    simp [EventPacket.get_return_params, ← hbs, hlen,
      sliceLoop_eq_sliceSpec bs Endian.little (l :: ls) 0]
    simpa using hle

/-- C10: with a non-empty widths list the `signed` flag is ignored — the
slicing loop always decodes unsigned — while on the widths-omitted
single-integer path the flag does change the result (a region `[0xFF]`
decodes to 255 unsigned and to -1 signed). -/
theorem sliced_fields_ignore_signed (p : EventPacket) (l : Nat) (ls : List Nat)
    (e : Endian) (raw : Bool) :
    p.get_return_params (some (l :: ls)) e raw true =
      p.get_return_params (some (l :: ls)) e raw false
    ∧ ({ evt_code := 0x0E, length := 4, status := none, evt_subcode := none,
         evt_params := [0, 0, 0, 0, 0xFF] } : EventPacket).get_return_params
          none Endian.little false true ≠
        ({ evt_code := 0x0E, length := 4, status := none, evt_subcode := none,
           evt_params := [0, 0, 0, 0, 0xFF] } : EventPacket).get_return_params
          none Endian.little false false := by
  exact ⟨rfl, by decide⟩

theorem to_bytes_overflow_none (g c : Nat) (ps : List Int) (e : Endian)
    (h : 255 < CommandPacket.getLength (some ps)) :
    CommandPacket.to_bytes g c (some ps) e = none := by
  simp [CommandPacket.to_bytes, Nat.not_le.mpr h]

/-- C9 counterexample: a parameter list whose per-parameter widths sum to 256
does not produce a frame with a truncated length byte — serialization fails
outright (`bytearray.append` raises `ValueError` for values above 255). -/
theorem length_overflow_fails_not_truncates :
    CommandPacket.to_bytes 0 0 (some (List.replicate 256 0)) Endian.little =
      none
    ∧ CommandPacket.getLength (some (List.replicate 256 0)) = 256 := by
  have hbl : byteLength 0 = 1 := by decide
  have hlen : CommandPacket.getLength (some (List.replicate 256 (0 : Int))) = 256 := by
    rw [show CommandPacket.getLength (some (List.replicate 256 (0 : Int))) =
        ((List.replicate 256 (0 : Int)).map byteLength).sum from rfl,
      List.map_replicate, hbl, List.sum_replicate, smul_eq_mul, mul_one]
  exact ⟨to_bytes_overflow_none 0 0 _ Endian.little (by rw [hlen]; norm_num), hlen⟩

/-- C9 (amended): the length byte of a serialized command frame equals the
exact sum of the per-parameter encoded widths whenever serialization
succeeds, and that requires the sum to be at most 255: a parameter list whose
total width exceeds 255 makes `to_bytes` fail (the one-byte length field
rejects the value) rather than silently truncating. -/
theorem length_byte_exact_or_fail (g c : Nat) (ps : List Int) (e : Endian)
    (bs : List Nat) :
    (255 < CommandPacket.getLength (some ps) →
      CommandPacket.to_bytes g c (some ps) e = none)
    ∧ (CommandPacket.to_bytes g c (some ps) e = some bs →
        bs[3]? = some (CommandPacket.getLength (some ps))) := by
  constructor
  · intro h
    exact to_bytes_overflow_none g c ps e h
  · intro h
    by_cases hle : CommandPacket.getLength (some ps) ≤ 255
    · rcases heq : encodeParams ps e with _ | pbs
      · simp [CommandPacket.to_bytes, hle, heq] at h
      · simp only [CommandPacket.to_bytes, hle, if_true, heq] at h
        simp only [Option.some.injEq] at h
        subst h
        simp
    · simp [CommandPacket.to_bytes, hle] at h

theorem writeLoopNR_nat (t : ℚ) : ∀ r : Nat,
    SerialUartTransport.writeLoopNR t (r : Int) =
      (List.replicate (r + 1) TransportAction.retrieveAttempt, ((r : ℚ) + 1) * t) := by
  intro r
  induction r with
  | zero =>
    rw [SerialUartTransport.writeLoopNR]
    rw [if_pos (by norm_num)]
    rw [SerialUartTransport.writeLoopNR]
    rw [if_neg (by norm_num)]
    norm_num
  | succ n ih =>
    rw [SerialUartTransport.writeLoopNR]
    rw [if_pos (by positivity)]
    have h1 : ((n + 1 : Nat) : Int) - 1 = (n : Int) := by push_cast; ring
    rw [h1, ih]
    refine Prod.ext ?_ ?_
    · simp [List.replicate_succ]
    · push_cast
      ring

/-- C3: against a non-responding peer, `_write` with `retries = r ≥ 0` writes
the serialized command exactly once (the single `port.write` before the retry
loop), makes exactly `r + 1` waiting attempts — each consuming one `timeout`
and ending in the `TimeoutError` of `_retrieve` — without ever resending the
command, then raises `TimeoutError`; the elapsed time is `(r + 1) ·
timeout`, hence at least `(r + 1) · timeout`. -/
theorem write_retry_nonresponding (pkt : List Nat) (r : Nat) (t : ℚ) :
    (SerialUartTransport.writeNR pkt (r : Int) t).actions =
      TransportAction.write pkt ::
        List.replicate (r + 1) TransportAction.retrieveAttempt
    ∧ (SerialUartTransport.writeNR pkt (r : Int) t).timedOut = true
    ∧ (SerialUartTransport.writeNR pkt (r : Int) t).elapsed = ((r : ℚ) + 1) * t
    ∧ ((r : ℚ) + 1) * t ≤ (SerialUartTransport.writeNR pkt (r : Int) t).elapsed := by
  have h := writeLoopNR_nat t r
  refine ⟨?_, rfl, ?_, ?_⟩
  · simp [SerialUartTransport.writeNR, h]
  · simp [SerialUartTransport.writeNR, h]
  · simp [SerialUartTransport.writeNR, h]

/-- C5: for `group ≤ 0x3F` and `command ≤ 0x3FF`, every successfully encoded
parameter list yields the frame
`[type_tag][opcode_lo][opcode_hi][length][param bytes…]` with
`opcode = (g << 10) | c = 1024·g + c` stored little-endian (reading the two
opcode bytes back little-endian recovers the opcode); in particular group
0x3F, command 0x001, params `[0x01]` serializes to exactly
`[0x01, 0x01, 0xFC, 0x01, 0x01]`. -/
theorem command_frame_layout (g c : Nat) (ps : List Int) (pbs : List Nat)
    (hg : g ≤ 0x3F) (hc : c ≤ 0x3FF)
    (hp : encodeParams ps Endian.little = some pbs)
    (hl : CommandPacket.getLength (some ps) ≤ 255) :
    CommandPacket.to_bytes g c (some ps) Endian.little =
      some (CommandPacket.COMMAND_TAG :: (1024 * g + c) % 256 ::
        (1024 * g + c) / 256 :: CommandPacket.getLength (some ps) :: pbs)
    ∧ CommandPacket.make_hci_opcode g c = 1024 * g + c
    ∧ fromLEBytes [(1024 * g + c) % 256, (1024 * g + c) / 256] =
        CommandPacket.make_hci_opcode g c
    ∧ CommandPacket.to_bytes 0x3F 0x001 (some [1]) Endian.little =
        some [0x01, 0x01, 0xFC, 0x01, 0x01] := by
  have ho : CommandPacket.make_hci_opcode g c = 1024 * g + c :=
    make_hci_opcode_eq g c (by omega)
  have hlt : 1024 * g + c < 65536 := by omega
  refine ⟨?_, ho, ?_, by decide⟩
  · simp only [CommandPacket.to_bytes, hl, if_true, hp, ho, and_255_eq_mod,
      and_hi_shift_eq_div _ hlt]
    simp
  · simp only [fromLEBytes, ho]
    omega

/-- C4 counterexample: the claim quantifies over every integer, but
serializing -129 fails: `_byte_length(-129) = 1` (Python `bit_length`
ignores the sign), the unsigned one-byte encoding rejects a negative value
and the signed one-byte encoding rejects a value below -128, so the
`OverflowError` escapes and no bytes are produced. -/
theorem encodeParam_overflow_neg129 :
    encodeParam (-129) Endian.little = none := by
  decide

/-- C4 (amended): for every integer `v` that the signed fallback can
represent — that is, `-(2 ^ (8·n - 1)) ≤ v` for the minimal width
`n = byteLength v = max(ceil(bitlength(v)/8), 1)` — serialization succeeds,
uses exactly `n` little-endian bytes (unsigned first, two's-complement
signed of the same width when `v` is negative), and decoding those `n` bytes
with the matching signedness recovers `v` exactly.  Integers below that
bound (e.g. -129, whose width is computed from `bitlength(129) = 8` as one
byte) make both `to_bytes` calls raise `OverflowError`. -/
theorem encodeParam_roundtrip (v : Int)
    (h : -(2 ^ (8 * byteLength v - 1) : Int) ≤ v) :
    ∃ bs, encodeParam v Endian.little = some bs
      ∧ bs.length = byteLength v
      ∧ intFromBytes bs Endian.little (decide (v < 0)) = v := by
  have hn1 : 1 ≤ byteLength v := byteLength_pos v
  have habs : v.natAbs < 2 ^ (8 * byteLength v) := natAbs_lt_two_pow_byteLength v
  set n := byteLength v with hn
  by_cases hv : 0 ≤ v
  · -- unsigned path
    have h2 : (v.natAbs : Int) < ((2 : Int)) ^ (8 * n) := by exact_mod_cast habs
    rw [Int.natAbs_of_nonneg hv] at h2
    have hup : intToBytes v n Endian.little false =
        some (toLEBytes v.toNat n) := by
      simp [intToBytes, hv, h2, bytesOf]
    have hunat : v.toNat < 2 ^ (8 * n) := by
      have hcast : ((2 ^ (8 * n) : Nat) : Int) = (2 : Int) ^ (8 * n) := by push_cast; rfl
      omega
    refine ⟨toLEBytes v.toNat n, ?_, toLEBytes_length n v.toNat, ?_⟩
    · simp [encodeParam, ← hn, hup]
    · have hdec : decide (v < 0) = false := decide_eq_false (not_lt.mpr hv)
      rw [hdec]
      simp only [intFromBytes, natFromBytes, Bool.false_eq_true, false_and, if_neg,
        not_false_eq_true]
      rw [fromLEBytes_toLEBytes n v.toNat hunat]
      simp [Int.toNat_of_nonneg hv]
  · -- signed path
    push_neg at hv
    have hMK : 2 ^ (8 * n) = 2 * 2 ^ (8 * n - 1) := by
      have h8 : 8 * n = (8 * n - 1) + 1 := by omega
      calc 2 ^ (8 * n) = 2 ^ ((8 * n - 1) + 1) := by rw [← h8]
      _ = 2 * 2 ^ (8 * n - 1) := by rw [pow_succ]; ring
    have hMcast : ((2 ^ (8 * n) : Nat) : Int) = (2 : Int) ^ (8 * n) := by push_cast; rfl
    have hKcast : ((2 ^ (8 * n - 1) : Nat) : Int) = (2 : Int) ^ (8 * n - 1) := by
      push_cast; rfl
    have hMKi : ((2 : Int)) ^ (8 * n) = 2 * (2 : Int) ^ (8 * n - 1) := by
      have := hMK
      omega
    have hlow : (0 : Int) ≤ v + (2 : Int) ^ (8 * n) := by omega
    have hhigh : v + (2 : Int) ^ (8 * n) < (2 : Int) ^ (8 * n) := by omega
    have hmod : v % ((2 : Int) ^ (8 * n)) = v + (2 : Int) ^ (8 * n) := by
      have h1 : (v + (2 : Int) ^ (8 * n) * 1) % ((2 : Int) ^ (8 * n)) =
          v % ((2 : Int) ^ (8 * n)) :=
        Int.add_mul_emod_self_left v ((2 : Int) ^ (8 * n)) 1
      rw [mul_one] at h1
      rw [← h1, Int.emod_eq_of_lt hlow hhigh]
    have hK2 : (2 : Int) ^ (8 * n - 1) ≤ v + (2 : Int) ^ (8 * n) := by omega
    set u : Nat := (v % ((2 : Int) ^ (8 * n))).toNat with hu
    have hui : (u : Int) = v + (2 : Int) ^ (8 * n) := by
      rw [hu, hmod]
      omega
    have huM : u < 2 ^ (8 * n) := by omega
    have huK : 2 ^ (8 * n - 1) ≤ u := by omega
    have hdown : intToBytes v n Endian.little false = none := by
      simp [intToBytes, not_le.mpr hv]
    have hsig : intToBytes v n Endian.little true = some (toLEBytes u n) := by
      have hcond : -(2 ^ (8 * n - 1) : Int) ≤ v ∧ v < 2 ^ (8 * n - 1) := by
        constructor
        · exact h
        · omega
      simp [intToBytes, hcond, bytesOf, hu]
    refine ⟨toLEBytes u n, ?_, toLEBytes_length n u, ?_⟩
    · simp [encodeParam, ← hn, hdown, hsig]
    · have hdec : decide (v < 0) = true := decide_eq_true hv
      rw [hdec]
      simp only [intFromBytes, natFromBytes, toLEBytes_length,
        fromLEBytes_toLEBytes n u huM, true_and]
      rw [if_pos huK]
      omega

/-- C4 witness: the round-trip at the concrete input -128 (one signed
byte). -/
theorem encodeParam_roundtrip_witness :
    ∃ bs, encodeParam (-128) Endian.little = some bs
      ∧ bs.length = byteLength (-128)
      ∧ intFromBytes bs Endian.little (decide ((-128 : Int) < 0)) = -128 :=
  encodeParam_roundtrip (-128) (by decide)

/-- C5 witness: the frame layout at group 0x3F, command 0x001, params
`[0x01]`. -/
theorem command_frame_layout_witness :
    CommandPacket.to_bytes 0x3F 0x001 (some [1]) Endian.little =
      some (CommandPacket.COMMAND_TAG :: (1024 * 0x3F + 0x001) % 256 ::
        (1024 * 0x3F + 0x001) / 256 :: CommandPacket.getLength (some [1]) :: [1])
    ∧ CommandPacket.make_hci_opcode 0x3F 0x001 = 1024 * 0x3F + 0x001
    ∧ fromLEBytes [(1024 * 0x3F + 0x001) % 256, (1024 * 0x3F + 0x001) / 256] =
        CommandPacket.make_hci_opcode 0x3F 0x001
    ∧ CommandPacket.to_bytes 0x3F 0x001 (some [1]) Endian.little =
        some [0x01, 0x01, 0xFC, 0x01, 0x01] :=
  command_frame_layout 0x3F 0x001 [1] [1] (by decide) (by decide) (by decide)
    (by decide)

end BleHci
